import Mathlib

/-!
Verification of the Langara course-schedule exporter (`content.js`).

JS strings are embedded as `List Char`; each definition below translates one
function of the source file, keeping its name and control structure.  DOM
tables are embedded as lists of rows of cells (a cell is either a header cell
`th` or a data cell `td`, carrying its text content).
-/

set_option maxRecDepth 40000

/-- Whitespace test used to model JavaScript's `String.prototype.trim`
(the characters that actually occur in the scraped table texts). -/
def isWSChar (c : Char) : Bool :=
  c == ' ' || c == '\t' || c == '\n' || c == '\r' || c == '\x0b' || c == '\x0c'

/-- Models `str.trim()`: drop whitespace from both ends. -/
def trimChars (s : List Char) : List Char :=
  ((s.dropWhile isWSChar).reverse.dropWhile isWSChar).reverse

/-- Models `str.padStart(n, c)`. -/
def leftpad (n : Nat) (c : Char) (s : List Char) : List Char :=
  List.replicate (n - s.length) c ++ s

/-- Models `str.split(sep)` for a one-character separator: the list of
(maximal) chunks between separator occurrences, with empty chunks kept. -/
def splitOnChar (sep : Char) : List Char → List (List Char)
  | [] => [[]]
  | c :: rest =>
    match splitOnChar sep rest with
    | [] => [[]]
    | h :: t => if c = sep then [] :: h :: t else (c :: h) :: t

/-- Models `hay.includes(needle)`: substring containment. -/
def jsIncludes (hay needle : List Char) : Bool :=
  hay.tails.any (fun t => needle.isPrefixOf t)

/-- Models `parseInt(s, 10)` for the digit-string arguments that occur in this
program (a leading run of decimal digits read as a number). -/
def natOfDigits (s : List Char) : Nat :=
  (s.takeWhile Char.isDigit).foldl (fun n c => n * 10 + (c.toNat - 48)) 0

/-- The `MONTH_MAP` table: month abbreviation to two-digit month number. -/
def monthMap (m : List Char) : Option (List Char) :=
  if m = "JAN".data then some ("01".data)
  else if m = "FEB".data then some ("02".data)
  else if m = "MAR".data then some ("03".data)
  else if m = "APR".data then some ("04".data)
  else if m = "MAY".data then some ("05".data)
  else if m = "JUN".data then some ("06".data)
  else if m = "JUL".data then some ("07".data)
  else if m = "AUG".data then some ("08".data)
  else if m = "SEP".data then some ("09".data)
  else if m = "OCT".data then some ("10".data)
  else if m = "NOV".data then some ("11".data)
  else if m = "DEC".data then some ("12".data)
  else none

/-- The `DAY_MAP` table: Banner weekday letter to ICS `BYDAY` code. -/
def dayMap : Char → Option (List Char)
  | 'M' => some ("MO".data)
  | 'T' => some ("TU".data)
  | 'W' => some ("WE".data)
  | 'R' => some ("TH".data)
  | 'F' => some ("FR".data)
  | 'S' => some ("SA".data)
  | 'U' => some ("SU".data)
  | _ => none

/-- The `positions` array of `parseBannerDays`. -/
def positionsList : List Char := ['M', 'T', 'W', 'R', 'F', 'S', 'U']

/-- Proleptic-Gregorian leap-year rule (the one JavaScript `Date` uses). -/
def isLeapYear (y : Nat) : Bool :=
  y % 4 == 0 && (y % 100 != 0 || y % 400 == 0)

/-- Length of a month in the proleptic Gregorian calendar. -/
def daysInMonth (y m : Nat) : Nat :=
  if m = 2 then (if isLeapYear y then 29 else 28)
  else if m = 4 ∨ m = 6 ∨ m = 9 ∨ m = 11 then 30 else 31

/-- Models the validity check `!isNaN(new Date(`given year-month-day`).getTime())`
performed by `parseBannerDate`.  The month string always comes from
`MONTH_MAP` (two digits, 01–12); when the year is four digits and the day two
digits the template is an ISO `YYYY-MM-DD` string, which the JS engine accepts
exactly when it denotes a real calendar date.  Other shapes (unreachable from
the inputs considered in this development) are modelled as invalid. -/
def jsDateValid (year month day : List Char) : Prop :=
  year.length = 4 ∧ (∀ c ∈ year, c.isDigit = true) ∧
  month.length = 2 ∧ (∀ c ∈ month, c.isDigit = true) ∧
  day.length = 2 ∧ (∀ c ∈ day, c.isDigit = true) ∧
  1 ≤ natOfDigits month ∧ natOfDigits month ≤ 12 ∧
  1 ≤ natOfDigits day ∧
  natOfDigits day ≤ daysInMonth (natOfDigits year) (natOfDigits month)

instance (year month day : List Char) : Decidable (jsDateValid year month day) := by
  unfold jsDateValid; infer_instance

/-- `parseBannerDate`: Banner date string (`06-MAY-2024`) to `YYYYMMDD`, or
`none` when invalid. -/
def parseBannerDate (dateStr : List Char) : Option (List Char) :=
  if dateStr = [] then none
  else
    match splitOnChar '-' (trimChars dateStr) with
    | [d, mon, y] =>
      let day := leftpad 2 '0' d
      match monthMap (mon.map Char.toUpper) with
      | none => none
      | some month =>
        if jsDateValid y month day then some (y ++ month ++ day) else none
    | _ => none

/-- Result of `parseBannerTime` (`{start, end}` object; `end` is a Lean
keyword, hence `endT`). -/
structure TimeParts where
  start : List Char
  endT : List Char
deriving DecidableEq, Repr

/-- The inner `formatTime` helper of `parseBannerTime`. -/
def formatTime (time : List Char) : List Char :=
  let padded := leftpad 4 '0' time
  let hours := padded.take (padded.length - 2)
  let minutes := padded.drop (padded.length - 2)
  leftpad 2 '0' hours ++ ':' :: minutes

/-- `parseBannerTime`: Banner time range (`1230-1420`) to start/end `HH:MM`,
or `none` when the input does not split into exactly two parts. -/
def parseBannerTime (timeStr : List Char) : Option TimeParts :=
  if timeStr = [] then none
  else
    match splitOnChar '-' (trimChars timeStr) with
    | [s, e] => some ⟨formatTime (trimChars s), formatTime (trimChars e)⟩
    | _ => none

/-- `parseBannerDays`: Banner days mask to the list of ICS `BYDAY` codes.
For each of the seven position letters in fixed order, the code is pushed
when the trimmed upper-cased input contains that letter. -/
def parseBannerDays (daysStr : List Char) : List (List Char) :=
  if daysStr = [] then []
  else
    let trimmed := (trimChars daysStr).map Char.toUpper
    positionsList.foldl
      (fun days p =>
        if trimmed.contains p then
          match dayMap p with
          | some icsDay => days ++ [icsDay]
          | none => days
        else days) []

/-- A table cell: a `th` (header) or `td` (data) element with its text. -/
structure Cell where
  header : Bool
  text : List Char
deriving DecidableEq, Repr

/-- A table row (`tr`). -/
structure Row where
  cells : List Cell
deriving DecidableEq, Repr

/-- The scraped table. -/
structure Table where
  rows : List Row
deriving DecidableEq, Repr

/-- `row.querySelectorAll('td')`, as the list of data-cell texts. -/
def tds (r : Row) : List (List Char) :=
  (r.cells.filter (fun c => !c.header)).map Cell.text

/-- `row.querySelectorAll('th')`, as the list of header-cell texts. -/
def ths (r : Row) : List (List Char) :=
  (r.cells.filter (fun c => c.header)).map Cell.text

/-- `row.querySelector('th') !== null`. -/
def hasTh (r : Row) : Bool :=
  r.cells.any (fun c => c.header)

/-- Index of the first header text whose trimmed upper-cased form contains
`needle` (the inner scan loops of `getColumnIndex`). -/
def findHeaderIn (needle : List Char) : List (List Char) → Option Nat
  | [] => none
  | h :: t =>
    if jsIncludes ((trimChars h).map Char.toUpper) needle then some 0
    else (findHeaderIn needle t).map (· + 1)

/-- The second loop of `getColumnIndex`: walk the rows from the top, stop at
the first row without header cells, return the first matching index. -/
def columnScanRows (needle : List Char) : List Row → Int
  | [] => -1
  | r :: rest =>
    let headers := ths r
    if headers.length = 0 then -1
    else
      match findHeaderIn needle headers with
      | some i => (i : Int)
      | none => columnScanRows needle rest

/-- `getColumnIndex`: resolve a semantic column name to an index, `-1` when
not found.  First the first header-bearing row is searched; if that fails,
all rows from the top until the first header-less row. -/
def getColumnIndex (table : Table) (headerText : List Char) : Int :=
  let needle := headerText.map Char.toUpper
  let phase1 : Option Nat :=
    match table.rows.find? (fun r => hasTh r) with
    | some row => findHeaderIn needle (ths row)
    | none => none
  match phase1 with
  | some i => (i : Int)
  | none => columnScanRows needle table.rows

/-- First `some` in a list of options. -/
def firstSome : List (Option Nat) → Option Nat
  | [] => none
  | some a :: _ => some a
  | none :: t => firstSome t

/-- The Column Resolver as the specification describes it: check the first
row containing header cells; if no match, check every header-cell-bearing row
top-to-bottom, stopping at the first row with no header cells; `-1` only when
no checked header cell matches.  Matching is case-insensitive substring
containment. -/
def resolveColumnSpec (table : Table) (field : List Char) : Int :=
  let needle := field.map Char.toUpper
  let firstRowMatch : Option Nat :=
    match table.rows.find? (fun r => hasTh r) with
    | some row => findHeaderIn needle (ths row)
    | none => none
  match firstRowMatch with
  | some i => (i : Int)
  | none =>
    match firstSome ((table.rows.takeWhile (fun r => (ths r).length ≠ 0)).map
        (fun r => findHeaderIn needle (ths r))) with
    | some i => (i : Int)
    | none => -1

/-- The date regex `/^\d{1,2}-[A-Za-z]{3}-\d{4}$/i` of `parseTableRow`. -/
def matchesDate (s : List Char) : Bool :=
  match splitOnChar '-' s with
  | [d, m, y] =>
    decide (1 ≤ d.length) && decide (d.length ≤ 2) && d.all Char.isDigit &&
    (m.length == 3) && m.all Char.isAlpha &&
    (y.length == 4) && y.all Char.isDigit
  | _ => false

/-- The time regex `/^\d{3,4}-\d{3,4}$/` of `parseTableRow`. -/
def matchesTime (s : List Char) : Bool :=
  match splitOnChar '-' s with
  | [a, b] =>
    decide (3 ≤ a.length) && decide (a.length ≤ 4) && a.all Char.isDigit &&
    decide (3 ≤ b.length) && decide (b.length ≤ 4) && b.all Char.isDigit
  | _ => false

/-- The days regex `/^[-MTWRFSUmtwfrsu]{7}$/` of `parseTableRow`. -/
def matchesDaysMask (s : List Char) : Bool :=
  (s.length == 7) &&
  s.all (fun c =>
    ['-', 'M', 'T', 'W', 'R', 'F', 'S', 'U',
     'm', 't', 'w', 'f', 'r', 's', 'u'].contains c)

/-- The `getCellText` helper of `parseTableRow`: trimmed text of the cell at
`idx` when in range, else at the hard-coded fallback index, else empty. -/
def getCellText (cells : List (List Char)) (idx : Int) (fallbackIdx : Nat) : List Char :=
  if 0 ≤ idx ∧ idx < (cells.length : Int) then trimChars (cells.getD idx.toNat [])
  else if fallbackIdx < cells.length then trimChars (cells.getD fallbackIdx [])
  else []

/-- A cell whose trimmed upper-cased text is exactly `LECTURE`, `LAB` or
`EXAM`. -/
def isTypeCell (c : List Char) : Bool :=
  let t := (trimChars c).map Char.toUpper
  t == ("LECTURE".data) || t == ("LAB".data) || t == ("EXAM".data)

/-- The Type extraction of `parseTableRow`: content-pattern scan first, then
the resolved/fallback column index. -/
def extractType (cells : List (List Char)) (table : Table) : List Char :=
  let byPattern :=
    match cells.find? isTypeCell with
    | some c => trimChars c
    | none => []
  if byPattern = [] then getCellText cells (getColumnIndex table ("Type".data)) 9
  else byPattern

/-- The Start/End pattern scan of `parseTableRow`: at the first cell matching
the date pattern, the end date is the next cell when it also matches. -/
def scanDateCells : List (List Char) → Option (List Char × List Char)
  | [] => none
  | c :: rest =>
    let t := trimChars c
    if matchesDate t then
      some (t,
        match rest with
        | [] => []
        | nxt :: _ => if matchesDate (trimChars nxt) then trimChars nxt else [])
    else scanDateCells rest

/-- Start/End date extraction of `parseTableRow`: pattern scan first, then
the resolved/fallback column indices. -/
def extractStartEnd (cells : List (List Char)) (table : Table) : List Char × List Char :=
  match scanDateCells cells with
  | some se => se
  | none =>
    (getCellText cells (getColumnIndex table ("Start".data)) 7,
     getCellText cells (getColumnIndex table ("End".data)) 8)

/-- Time extraction of `parseTableRow`. -/
def extractTime (cells : List (List Char)) (table : Table) : List Char :=
  let byPattern :=
    match cells.find? (fun c => matchesTime (trimChars c)) with
    | some c => trimChars c
    | none => []
  if byPattern = [] then getCellText cells (getColumnIndex table ("Time".data)) 11
  else byPattern

/-- Days extraction of `parseTableRow`. -/
def extractDays (cells : List (List Char)) (table : Table) : List Char :=
  let byPattern :=
    match cells.find? (fun c => matchesDaysMask (trimChars c)) with
    | some c => trimChars c
    | none => []
  if byPattern = [] then getCellText cells (getColumnIndex table ("Days".data)) 10
  else byPattern

/-- The carry-over `currentCourseInfo` object. -/
structure CourseInfo where
  subject : List Char
  course : List Char
  sec : List Char
  title : List Char
deriving DecidableEq, Repr

/-- The course-session record returned by `parseTableRow` (the JS field
`end` is a Lean keyword, hence `endRaw`). -/
structure CourseData where
  subject : List Char
  course : List Char
  sec : List Char
  title : List Char
  type : List Char
  days : List Char
  time : List Char
  start : List Char
  endRaw : List Char
  room : List Char
deriving DecidableEq, Repr

/-- `parseTableRow`: extract a session record from one data row, or `none`
for rows that are not sessions. -/
def parseTableRow (row : Row) (table : Table) (ctx : CourseInfo) : Option CourseData :=
  let cells := tds row
  if cells.length < 3 then none
  else
    let type := extractType cells table
    let se := extractStartEnd cells table
    let time := extractTime cells table
    let days := extractDays cells table
    let subj := getCellText cells (getColumnIndex table ("Subj".data)) 1
    let crse := getCellText cells (getColumnIndex table ("Crse".data)) 2
    let sec := getCellText cells (getColumnIndex table ("Sec".data)) 3
    let title := getCellText cells (getColumnIndex table ("Title".data)) 6
    let room := getCellText cells (getColumnIndex table ("Room".data)) 12
    let finalSubj := if subj ≠ [] then subj else ctx.subject
    let finalCrse := if crse ≠ [] then crse else ctx.course
    let finalSec := if sec ≠ [] then sec else ctx.sec
    let finalTitle := if title ≠ [] then title else ctx.title
    if type = [] ∨ trimChars type = [] then none
    else if se.1 = [] ∧ time = [] then none
    else
      let normalizedType := trimChars (type.map Char.toUpper)
      let courseIdentifier :=
        if finalSubj ≠ [] ∧ finalCrse ≠ [] then trimChars (finalSubj ++ ' ' :: finalCrse)
        else if finalSubj ≠ [] then finalSubj
        else "Course".data
      let sectionPart := if finalSec ≠ [] then ' ' :: finalSec else []
      let courseCode := trimChars (courseIdentifier ++ sectionPart)
      some { subject := finalSubj, course := finalCrse, sec := finalSec,
             title := if finalTitle ≠ [] then finalTitle else courseCode,
             type := normalizedType, days := days, time := time,
             start := se.1, endRaw := se.2, room := room }

/-- `formatICSDateTime`: `YYYYMMDD` plus `HH:MM` to a floating ICS timestamp
`YYYYMMDDTHHMMSS` (simple concatenation, both parts zero-padded). -/
def formatICSDateTime (dateStr timeStr : List Char) : List Char :=
  if dateStr = [] ∨ timeStr = [] then []
  else
    let parts := splitOnChar ':' timeStr
    let hours := parts.headD []
    let minutes := parts.getD 1 []
    dateStr ++ 'T' :: (leftpad 2 '0' hours ++ leftpad 2 '0' minutes ++ "00".data)

/-- The next day in the proleptic Gregorian calendar. -/
def advanceDay : Nat × Nat × Nat → Nat × Nat × Nat
  | (y, m, d) =>
    if d < daysInMonth y m then (y, m, d + 1)
    else if m < 12 then (y, m + 1, 1)
    else (y + 1, 1, 1)

/-- Advance a civil date by `n` days. -/
def advanceDays : Nat → Nat × Nat × Nat → Nat × Nat × Nat
  | 0, ymd => ymd
  | n + 1, ymd => advanceDays n (advanceDay ymd)

/-- A natural number printed in decimal, zero-padded to two digits. -/
def pad2 (n : Nat) : List Char :=
  leftpad 2 '0' (Nat.toDigits 10 n)

/-- `formatICSDateTimeUTC`: shift a local `YYYYMMDD` + `HH:MM` timestamp by a
fixed +8 hours into UTC (`YYYYMMDDTHHMMSSZ`).  The JS code builds a
`Date.UTC` value and calls `setUTCHours(+8)`; for the calendar-valid dates
this function receives, that equals adding 8 x 60 minutes with day/month/year
carry in the proleptic Gregorian calendar, which is what is modelled here. -/
def formatICSDateTimeUTC (dateStr timeStr : List Char) : List Char :=
  if dateStr = [] ∨ timeStr = [] then []
  else
    let parts := splitOnChar ':' timeStr
    let hour := natOfDigits (parts.headD [])
    let minute := natOfDigits (parts.getD 1 [])
    let year := natOfDigits (dateStr.take 4)
    let month := natOfDigits ((dateStr.drop 4).take 2)
    let day := natOfDigits ((dateStr.drop 6).take 2)
    let totalMinutes := hour * 60 + minute + 8 * 60
    let ymd := advanceDays (totalMinutes / 1440) (year, month, day)
    Nat.toDigits 10 ymd.1 ++ pad2 ymd.2.1 ++ pad2 ymd.2.2 ++
      'T' :: (pad2 ((totalMinutes % 1440) / 60) ++ pad2 (totalMinutes % 60) ++ "00Z".data)

/-- Models `str.replace(/c/g, rep)` for a one-character pattern. -/
def replaceAllChar (c : Char) (rep : List Char) : List Char → List Char
  | [] => []
  | x :: xs =>
    if x = c then rep ++ replaceAllChar c rep xs
    else x :: replaceAllChar c rep xs

/-- `escapeICSText`: backslash, semicolon, comma and newline each get a
leading backslash (newline becomes the two characters `\` `n`), applied in
the source's order (backslashes first). -/
def escapeICSText (text : List Char) : List Char :=
  if text = [] then []
  else
    replaceAllChar '\n' ['\\', 'n']
      (replaceAllChar ',' ['\\', ',']
        (replaceAllChar ';' ['\\', ';']
          (replaceAllChar '\\' ['\\', '\\'] text)))

/-- Per-character form of `escapeICSText`, used to reason about it. -/
def escChar (c : Char) : List Char :=
  if c = '\\' then ['\\', '\\']
  else if c = ';' then ['\\', ';']
  else if c = ',' then ['\\', ',']
  else if c = '\n' then ['\\', 'n']
  else [c]

/-- Inverse of `escapeICSText`: decode one escape pair at a time. -/
def unescapeICSText : List Char → List Char
  | [] => []
  | [x] => [x]
  | x :: y :: rest =>
    if x = '\\' ∧ (y = '\\' ∨ y = ';' ∨ y = ',' ∨ y = 'n') then
      (if y = 'n' then '\n' else y) :: unescapeICSText rest
    else x :: unescapeICSText (y :: rest)

/-- Models `str.replace(pat, rep)` for a plain-string pattern: replace the
first occurrence only. -/
def replaceFirst (pat rep : List Char) : List Char → List Char
  | [] => if pat = [] then rep else []
  | c :: rest =>
    if pat.isPrefixOf (c :: rest) then rep ++ (c :: rest).drop pat.length
    else c :: replaceFirst pat rep rest

/-- `createEvent`: one `VEVENT` block for a session record, or the empty
string when the start date or the time range does not decode. -/
def createEvent (cd : CourseData) : List Char :=
  let startDate := parseBannerDate cd.start
  let endDate := parseBannerDate cd.endRaw
  let timeData := parseBannerTime cd.time
  match startDate, timeData with
  | some sd, some td =>
    let courseCode :=
      if cd.subject ≠ [] ∧ cd.course ≠ [] then
        trimChars (cd.subject ++ ' ' :: cd.course) ++
          (if cd.sec ≠ [] then ' ' :: cd.sec else [])
      else if cd.subject ≠ [] then
        cd.subject ++ (if cd.sec ≠ [] then ' ' :: cd.sec else [])
      else if cd.course ≠ [] then
        cd.course ++ (if cd.sec ≠ [] then ' ' :: cd.sec else [])
      else if cd.title ≠ [] then cd.title
      else "Course".data
    let summary :=
      if cd.type = ("EXAM".data) then "FINAL EXAM - ".data ++ courseCode
      else courseCode ++ ' ' :: cd.type
    let description := if cd.title ≠ [] then cd.title else courseCode
    let location :=
      if cd.room ≠ [] then "Langara College, Room ".data ++ cd.room
      else "Langara College".data
    let dtStart := formatICSDateTime sd td.start
    let dtEnd := formatICSDateTime sd td.endT
    let ev :=
      "BEGIN:VEVENT\r\n".data ++
      "DTSTART;TZID=America/Los_Angeles:".data ++ dtStart ++ "\r\n".data ++
      "DTEND;TZID=America/Los_Angeles:".data ++ dtEnd ++ "\r\n".data
    let ev :=
      if cd.type ≠ ("EXAM".data) then
        match endDate, parseBannerDays cd.days with
        | some ed, d :: ds =>
          ev ++ "RRULE:FREQ=WEEKLY;BYDAY=".data ++
            (List.intercalate (",".data) (d :: ds)) ++
            ";UNTIL=".data ++ formatICSDateTimeUTC ed ("23:59".data) ++ "\r\n".data
        | _, _ => ev
      else
        match endDate with
        | some ed =>
          if ed ≠ sd then
            replaceFirst ("DTEND;TZID=America/Los_Angeles:".data ++ dtEnd)
              ("DTEND;TZID=America/Los_Angeles:".data ++ formatICSDateTime ed td.endT) ev
          else ev
        | none => ev
    ev ++ "SUMMARY:".data ++ escapeICSText summary ++ "\r\n".data ++
      "DESCRIPTION:".data ++ escapeICSText description ++ "\r\n".data ++
      "LOCATION:".data ++ escapeICSText location ++ "\r\n".data ++
      "END:VEVENT\r\n".data
  | _, _ => []

/-- `generateICS`: the complete ICS document for a list of session records. -/
def generateICS (courses : List CourseData) : List Char :=
  let ics :=
    "BEGIN:VCALENDAR\r\n".data ++
    "VERSION:2.0\r\n".data ++
    "PRODID:-//Langara Swing Schedule Exporter//EN\r\n".data ++
    "CALSCALE:GREGORIAN\r\n".data ++
    "X-WR-TIMEZONE:America/Los_Angeles\r\n".data
  let ics := courses.foldl
    (fun acc course =>
      let event := createEvent course
      if event ≠ [] then acc ++ event else acc) ics
  ics ++ "END:VCALENDAR\r\n".data

/-- The running state of the scraping loop in `scrapeCourseData`. -/
structure ScrapeState where
  courses : List CourseData
  skipped : Nat
  invalid : Nat
  ctx : CourseInfo
deriving DecidableEq, Repr

/-- The carry-over update at the top of each loop iteration of
`scrapeCourseData`: a row that has its own subject and course overwrites the
running course-identity context. -/
def ctxUpdate (st : ScrapeState) (row : Row) : CourseInfo :=
  let cells := tds row
  let subjText := if 1 < cells.length then trimChars (cells.getD 1 []) else []
  let crseText := if 2 < cells.length then trimChars (cells.getD 2 []) else []
  let secText := if 3 < cells.length then trimChars (cells.getD 3 []) else []
  let titleText := if 6 < cells.length then trimChars (cells.getD 6 []) else []
  if subjText ≠ [] ∧ crseText ≠ [] then
    { subject := subjText, course := crseText, sec := secText, title := titleText }
  else st.ctx

/-- One iteration of the data-row loop of `scrapeCourseData`. -/
def scrapeStep (table : Table) (st : ScrapeState) (row : Row) : ScrapeState :=
  let cells := tds row
  if cells.length < 3 then { st with skipped := st.skipped + 1 }
  else
    let ctx1 := ctxUpdate st row
    match parseTableRow row table ctx1 with
    | some cd =>
      let ctx2 :=
        if cd.subject ≠ [] ∧ cd.course ≠ [] then
          { subject := cd.subject, course := cd.course, sec := cd.sec, title := cd.title }
        else ctx1
      { st with courses := st.courses ++ [cd], ctx := ctx2 }
    | none => { st with invalid := st.invalid + 1, ctx := ctx1 }

/-- The initial loop state of `scrapeCourseData`. -/
def initScrapeState : ScrapeState :=
  { courses := [], skipped := 0, invalid := 0,
    ctx := { subject := [], course := [], sec := [], title := [] } }

/-- `scrapeCourseData` on an already-located table: count and skip the
leading header rows, fold the data rows, fail when no session was parsed. -/
def scrapeCourseData (table : Table) : Except (List Char) (List CourseData) :=
  let headerRowCount := (table.rows.takeWhile (fun r => hasTh r)).length
  let st := (table.rows.drop headerRowCount).foldl (scrapeStep table) initScrapeState
  if st.courses = [] then Except.error ("No course data found in the table.".data)
  else Except.ok st.courses

/-- Split an ICS document into its lines (separator `\r\n`). -/
def splitCRLF : List Char → List (List Char)
  | [] => [[]]
  | '\r' :: '\n' :: rest => [] :: splitCRLF rest
  | c :: rest =>
    match splitCRLF rest with
    | [] => [[c]]
    | h :: t => (c :: h) :: t

/-- The concrete lecture session of the round-trip property. -/
def lectureSession : CourseData :=
  { subject := "CPSC".data, course := "1050".data, sec := "001".data,
    title := "Introduction to Computer Science".data, type := "LECTURE".data,
    days := "-T-R---".data, time := "1230-1420".data,
    start := "06-MAY-2024".data, endRaw := "09-AUG-2024".data,
    room := "A136".data }

/-- A record whose time range cannot decode (used to exercise the
skip-on-undecodable behaviour). -/
def badSession : CourseData :=
  { subject := "HIST".data, course := "1113".data, sec := "W01".data,
    title := "World History".data, type := "LECTURE".data,
    days := "-T-R---".data, time := [],
    start := "06-MAY-2024".data, endRaw := "09-AUG-2024".data, room := [] }

/-- A minimal data row carrying a type, a start date and a time range. -/
def sampleRow : Row :=
  { cells := [⟨false, "LECTURE".data⟩, ⟨false, "06-MAY-2024".data⟩,
              ⟨false, "1230-1420".data⟩] }

/-- A table with no rows (column resolution falls back to the hard-coded
positions). -/
def emptyTable : Table := { rows := [] }

/-- A row with fewer than three data cells (a spacer row). -/
def spacerRow : Row := { cells := [⟨false, " ".data⟩] }

/-- C1: the lecture session with days `-T-R---`, time `1230-1420`, start
`06-MAY-2024` and end `09-AUG-2024` yields exactly one `VEVENT` block, whose
lines include the PST start/end timestamps and the weekly `TU,TH` recurrence
terminated at the end date 23:59 local, shifted +8 hours into UTC (rolling
into the next day). -/
theorem generateICS_lecture_roundtrip :
    ((splitCRLF (generateICS [lectureSession])).count ("BEGIN:VEVENT".data) = 1) ∧
    ("DTSTART;TZID=America/Los_Angeles:20240506T123000".data
      ∈ splitCRLF (generateICS [lectureSession])) ∧
    ("DTEND;TZID=America/Los_Angeles:20240506T142000".data
      ∈ splitCRLF (generateICS [lectureSession])) ∧
    ("RRULE:FREQ=WEEKLY;BYDAY=TU,TH;UNTIL=20240810T075900Z".data
      ∈ splitCRLF (generateICS [lectureSession])) := by
  decide

/-- Closed form of the fold inside `parseBannerDays`. -/
theorem foldl_days_eq (c : Char → Bool) (l : List Char) (init : List (List Char)) :
    l.foldl
      (fun days p =>
        if c p then
          match dayMap p with
          | some icsDay => days ++ [icsDay]
          | none => days
        else days) init
    = init ++ (l.filter c).filterMap dayMap := by
  induction l generalizing init with
  | nil => simp
  | cons p t ih =>
    simp only [List.foldl_cons, List.filter_cons]
    cases hc : c p with
    | false => simp [hc, ih]
    | true =>
      cases hd : dayMap p with
      | none => simp [hc, hd, ih]
      | some d => simp [hc, hd, ih]

/-- `parseBannerDays` as a filter of the fixed Monday-first position list. -/
theorem parseBannerDays_eq (s : List Char) (hs : s ≠ []) :
    parseBannerDays s
      = (positionsList.filter
          (fun p => ((trimChars s).map Char.toUpper).contains p)).filterMap dayMap := by
  unfold parseBannerDays
  rw [if_neg hs]
  simp only [foldl_days_eq, List.nil_append]

/-- C9: on every input string the days decoder returns a duplicate-free
subsequence of the fixed Monday-first list `[MO, TU, WE, TH, FR, SA, SU]`. -/
theorem parseBannerDays_sublist_week (s : List Char) :
    (parseBannerDays s).Sublist
        ["MO".data, "TU".data, "WE".data, "TH".data, "FR".data, "SA".data, "SU".data] ∧
    (parseBannerDays s).Nodup := by
  have hweek : positionsList.filterMap dayMap
      = ["MO".data, "TU".data, "WE".data, "TH".data, "FR".data, "SA".data, "SU".data] := by
    decide
  by_cases hs : s = []
  · subst hs
    constructor
    · simp [parseBannerDays]
    · simp [parseBannerDays]
  · have hsub : (parseBannerDays s).Sublist (positionsList.filterMap dayMap) := by
      rw [parseBannerDays_eq s hs]
      exact List.Sublist.filterMap dayMap (List.filter_sublist _)
    constructor
    · rw [hweek] at hsub; exact hsub
    · exact hsub.nodup (by rw [hweek]; decide)

/-- C3 counterexample: `"M"` is neither empty nor a 7-character weekday mask,
yet the days decoder returns the nonempty sequence `[MO]`. -/
theorem parseBannerDays_invalid_nonempty :
    ("M".data ≠ [] ∧ ("M".data).length ≠ 7) ∧
    parseBannerDays ("M".data) = ["MO".data] ∧ parseBannerDays ("M".data) ≠ [] := by
  decide

/-- C3 (amended): the days decoder returns the empty sequence exactly for
inputs that are empty or contain none of the seven weekday letters
(case-insensitively, after trimming); shape is never validated. -/
theorem parseBannerDays_empty_iff (s : List Char) :
    parseBannerDays s = [] ↔
      (s = [] ∨ ∀ p ∈ positionsList, ((trimChars s).map Char.toUpper).contains p = false) := by
  by_cases hs : s = []
  · subst hs; simp [parseBannerDays]
  · rw [parseBannerDays_eq s hs]
    constructor
    · intro h
      refine Or.inr (fun p hp => ?_)
      by_contra hc
      have hc' : ((trimChars s).map Char.toUpper).contains p = true := by
        cases hcc : ((trimChars s).map Char.toUpper).contains p
        · exact absurd hcc hc
        · rfl
      have hmem : p ∈ positionsList.filter
          (fun q => ((trimChars s).map Char.toUpper).contains q) := by
        rw [List.mem_filter]; exact ⟨hp, hc'⟩
      have hday : dayMap p ≠ none := by
        fin_cases hp <;> decide
      rw [List.filterMap_eq_nil_iff] at h
      exact hday (h p hmem)
    · intro h
      rcases h with h | h
      · exact absurd h hs
      · have : positionsList.filter
            (fun q => ((trimChars s).map Char.toUpper).contains q) = [] := by
          rw [List.filter_eq_nil_iff]
          intro p hp
          simp only [h p hp]
          exact Bool.false_ne_true
        rw [this]; rfl

/-- C3 (amended) at a concrete input: the all-placeholder mask decodes to the
empty sequence. -/
theorem parseBannerDays_empty_iff_checked :
    parseBannerDays ("-------".data) = [] :=
  (parseBannerDays_empty_iff ("-------".data)).mpr (Or.inr (by decide))

/-- A single-character replacement distributes over concatenation. -/
theorem replaceAllChar_append (k : Char) (rep a b : List Char) :
    replaceAllChar k rep (a ++ b) = replaceAllChar k rep a ++ replaceAllChar k rep b := by
  induction a with
  | nil => rfl
  | cons x xs ih =>
    simp only [List.cons_append, replaceAllChar]
    by_cases hx : x = k <;> simp [hx, ih]

/-- The four chained replacements act on one character as `escChar`. -/
theorem escBody_single (c : Char) :
    replaceAllChar '\n' ['\\', 'n']
        (replaceAllChar ',' ['\\', ',']
          (replaceAllChar ';' ['\\', ';']
            (replaceAllChar '\\' ['\\', '\\'] [c]))) = escChar c := by
  by_cases h1 : c = '\\'
  · subst h1; rfl
  · by_cases h2 : c = ';'
    · subst h2; rfl
    · by_cases h3 : c = ','
      · subst h3; rfl
      · by_cases h4 : c = '\n'
        · subst h4; rfl
        · simp [replaceAllChar, escChar, h1, h2, h3, h4]

/-- The four chained replacements are the concatenation of `escChar` over the
input. -/
theorem escBody_eq_join (s : List Char) :
    replaceAllChar '\n' ['\\', 'n']
        (replaceAllChar ',' ['\\', ',']
          (replaceAllChar ';' ['\\', ';']
            (replaceAllChar '\\' ['\\', '\\'] s))) = (s.map escChar).flatten := by
  induction s with
  | nil => rfl
  | cons c t ih =>
    have h1 : replaceAllChar '\\' ['\\', '\\'] (c :: t)
        = replaceAllChar '\\' ['\\', '\\'] [c] ++ replaceAllChar '\\' ['\\', '\\'] t := by
      simp only [replaceAllChar]
      by_cases hc : c = '\\' <;> simp [hc]
    rw [h1, replaceAllChar_append, replaceAllChar_append, replaceAllChar_append,
      escBody_single, ih]
    simp

/-- `escapeICSText` is `escChar` applied characterwise. -/
theorem escapeICSText_eq_join (s : List Char) :
    escapeICSText s = (s.map escChar).flatten := by
  by_cases hs : s = []
  · subst hs; rfl
  · unfold escapeICSText
    rw [if_neg hs]
    exact escBody_eq_join s

/-- `escChar` never produces the empty string. -/
theorem escChar_ne_nil (c : Char) : escChar c ≠ [] := by
  unfold escChar
  split_ifs <;> simp

/-- Decoding an escaped stream reads it back characterwise. -/
theorem unescape_join (s : List Char) :
    unescapeICSText ((s.map escChar).flatten) = s := by
  induction s with
  | nil => rfl
  | cons c t ih =>
    have hshow : ((c :: t).map escChar).flatten = escChar c ++ (t.map escChar).flatten := by
      simp
    rw [hshow]
    by_cases h1 : c = '\\'
    · subst h1
      show unescapeICSText ('\\' :: '\\' :: (t.map escChar).flatten) = '\\' :: t
      rw [unescapeICSText]
      simp [ih]
    · by_cases h2 : c = ';'
      · subst h2
        show unescapeICSText ('\\' :: ';' :: (t.map escChar).flatten) = ';' :: t
        rw [unescapeICSText]
        simp [ih]
      · by_cases h3 : c = ','
        · subst h3
          show unescapeICSText ('\\' :: ',' :: (t.map escChar).flatten) = ',' :: t
          rw [unescapeICSText]
          simp [ih]
        · by_cases h4 : c = '\n'
          · subst h4
            show unescapeICSText ('\\' :: 'n' :: (t.map escChar).flatten) = '\n' :: t
            rw [unescapeICSText]
            simp [ih]
          · have hesc : escChar c = [c] := by simp [escChar, h1, h2, h3, h4]
            rw [hesc]
            cases t with
            | nil => rfl
            | cons u t' =>
              have hne := escChar_ne_nil u
              cases hE : escChar u with
              | nil => exact absurd hE hne
              | cons y ys =>
                have hjoin : (((u :: t').map escChar).flatten)
                    = y :: (ys ++ ((t'.map escChar).flatten)) := by
                  simp [hE]
                rw [hjoin]
                rw [List.cons_append] at *
                show unescapeICSText (c :: y :: (ys ++ ((t'.map escChar).flatten)))
                    = c :: u :: t'
                rw [unescapeICSText]
                rw [if_neg (by intro hand; exact h1 hand.1)]
                have ih' := ih
                rw [hjoin] at ih'
                rw [ih']

/-- C10: escaping backslashes before semicolons, commas and newlines makes
`escapeICSText` invertible — `unescapeICSText` recovers every input exactly,
and the escaping is injective. -/
theorem escapeICSText_roundtrip (s t : List Char) :
    unescapeICSText (escapeICSText s) = s ∧
    (escapeICSText s = escapeICSText t → s = t) := by
  have hrt : ∀ u, unescapeICSText (escapeICSText u) = u := fun u => by
    rw [escapeICSText_eq_join]; exact unescape_join u
  refine ⟨hrt s, fun h => ?_⟩
  have h2 := congrArg unescapeICSText h
  rwa [hrt s, hrt t] at h2

/-- A session with an undecodable start date or time range produces the
empty event string. -/
theorem createEvent_eq_nil_of_fail (c : CourseData)
    (h : parseBannerDate c.start = none ∨ parseBannerTime c.time = none) :
    createEvent c = [] := by
  rcases h with h | h
  · cases ht : parseBannerTime c.time <;> simp [createEvent, h, ht]
  · cases hs : parseBannerDate c.start <;> simp [createEvent, h, hs]

/-- Closed form of the event-accumulating fold of `generateICS`. -/
theorem generateICS_foldl (l : List CourseData) (acc : List Char) :
    l.foldl
      (fun acc course =>
        let event := createEvent course
        if event ≠ [] then acc ++ event else acc) acc
    = acc ++ (l.map createEvent).flatten := by
  induction l generalizing acc with
  | nil => simp
  | cons c t ih =>
    simp only [List.foldl_cons, List.map_cons, List.flatten_cons]
    rw [ih]
    by_cases h : createEvent c = []
    · simp [h]
    · simp [h, List.append_assoc]

/-- `generateICS` is the boilerplate around the concatenation of the
per-session events. -/
theorem generateICS_eq (l : List CourseData) :
    generateICS l
      = ("BEGIN:VCALENDAR\r\n".data ++
         "VERSION:2.0\r\n".data ++
         "PRODID:-//Langara Swing Schedule Exporter//EN\r\n".data ++
         "CALSCALE:GREGORIAN\r\n".data ++
         "X-WR-TIMEZONE:America/Los_Angeles\r\n".data) ++
        (l.map createEvent).flatten ++ ("END:VCALENDAR\r\n".data) := by
  simp only [generateICS]
  rw [generateICS_foldl]

/-- Removing a record that contributes no event leaves the concatenation of
events unchanged. -/
theorem flatten_map_erase (l : List CourseData) (c : CourseData)
    (hc : c ∈ l) (h0 : createEvent c = []) :
    ((l.erase c).map createEvent).flatten = (l.map createEvent).flatten := by
  induction l with
  | nil => cases hc
  | cons a t ih =>
    by_cases hac : a = c
    · subst hac
      rw [List.erase_cons_head]
      simp [h0]
    · rw [List.erase_cons_tail (by simp [hac])]
      have hct : c ∈ t := by
        rcases List.mem_cons.mp hc with h | h
        · exact absurd h.symm hac
        · exact h
      simp only [List.map_cons, List.flatten_cons, ih hct]

/-- C5: a session record whose start date or time range fails to decode
contributes no `VEVENT` — its event string is empty and removing it from the
input leaves the generated document unchanged (every other record's event is
still emitted; generation never aborts). -/
theorem generateICS_skips_undecodable (courses : List CourseData) (c : CourseData)
    (hc : c ∈ courses)
    (hfail : parseBannerDate c.start = none ∨ parseBannerTime c.time = none) :
    createEvent c = [] ∧ generateICS courses = generateICS (courses.erase c) := by
  have h0 := createEvent_eq_nil_of_fail c hfail
  refine ⟨h0, ?_⟩
  rw [generateICS_eq, generateICS_eq, flatten_map_erase courses c hc h0]

/-- C5 at a concrete input: a record with an empty time range is skipped. -/
theorem generateICS_skips_undecodable_checked :
    createEvent badSession = [] ∧
    generateICS [badSession] = generateICS ([badSession].erase badSession) :=
  generateICS_skips_undecodable [badSession] badSession (by decide)
    (Or.inr (by decide))

/-- C4: a session record is returned only when the extracted session type is
non-empty and at least one of the extracted start date and time range is
present; otherwise the row yields no record. -/
theorem parseTableRow_requires_fields (row : Row) (table : Table) (ctx : CourseInfo)
    (r : CourseData) (h : parseTableRow row table ctx = some r) :
    extractType (tds row) table ≠ [] ∧
    ((extractStartEnd (tds row) table).1 ≠ [] ∨ extractTime (tds row) table ≠ []) := by
  simp only [parseTableRow] at h
  by_cases h3 : (tds row).length < 3
  · rw [if_pos h3] at h
    exact Option.noConfusion h
  · rw [if_neg h3] at h
    split at h
    · exact Option.noConfusion h
    · split at h
      · exact Option.noConfusion h
      · rename_i hty hst
        push_neg at hty hst
        refine ⟨hty.1, ?_⟩
        by_cases hs1 : (extractStartEnd (tds row) table).1 = []
        · exact Or.inr (hst hs1)
        · exact Or.inl hs1

/-- C4 at a concrete input: a row carrying a type, a date and a time parses
to a record, and indeed has a type and a start present. -/
theorem parseTableRow_requires_fields_checked :
    extractType (tds sampleRow) emptyTable ≠ [] ∧
    ((extractStartEnd (tds sampleRow) emptyTable).1 ≠ [] ∨
      extractTime (tds sampleRow) emptyTable ≠ []) := by
  have hs : (parseTableRow sampleRow emptyTable ⟨[], [], [], []⟩).isSome = true := by
    decide
  exact parseTableRow_requires_fields sampleRow emptyTable ⟨[], [], [], []⟩
    ((parseTableRow sampleRow emptyTable ⟨[], [], [], []⟩).get hs)
    (Option.some_get hs).symm

/-- C6: a data row with fewer than three cells only bumps the skipped-row
counter (in particular the courses, invalid counter and context are
untouched, so the Row Parser has no effect on the state); and the
invalid-row counter grows exactly when the row has at least three cells and
the Row Parser returns no record. -/
theorem scrapeStep_counts (table : Table) (st : ScrapeState) (row : Row) :
    ((tds row).length < 3 →
      scrapeStep table st row = { st with skipped := st.skipped + 1 }) ∧
    ((scrapeStep table st row).invalid = st.invalid + 1 ↔
      ¬ (tds row).length < 3 ∧ parseTableRow row table (ctxUpdate st row) = none) := by
  constructor
  · intro h3
    simp only [scrapeStep]
    rw [if_pos h3]
  · simp only [scrapeStep]
    by_cases h3 : (tds row).length < 3
    · rw [if_pos h3]
      simp [h3]
    · rw [if_neg h3]
      cases hp : parseTableRow row table (ctxUpdate st row) with
      | none => simp [h3, hp]
      | some cd => simp [h3, hp]

/-- C6 at a concrete input: a one-cell spacer row only bumps the skip
counter. -/
theorem scrapeStep_counts_checked :
    scrapeStep emptyTable initScrapeState spacerRow
      = { initScrapeState with skipped := initScrapeState.skipped + 1 } :=
  (scrapeStep_counts emptyTable initScrapeState spacerRow).1 (by decide)

/-- The break-at-first-header-less-row loop equals searching the
header-cell-bearing prefix of the rows. -/
theorem columnScanRows_eq_takeWhile (needle : List Char) (rows : List Row) :
    columnScanRows needle rows
      = match firstSome ((rows.takeWhile (fun r => (ths r).length ≠ 0)).map
            (fun r => findHeaderIn needle (ths r))) with
        | some i => (i : Int)
        | none => -1 := by
  induction rows with
  | nil => rfl
  | cons r rest ih =>
    by_cases hr : (ths r).length = 0
    · simp only [columnScanRows, List.takeWhile_cons]
      rw [if_pos hr]
      simp [hr, firstSome]
    · simp only [columnScanRows, List.takeWhile_cons]
      rw [if_neg hr]
      cases hf : findHeaderIn needle (ths r) with
      | some i => simp [hr, hf, firstSome]
      | none => simp [hr, hf, firstSome, ih]

/-- C8: the Column Resolver checks the first header-cell-bearing row first,
then every header-cell-bearing row top-to-bottom stopping at the first row
without header cells, and answers `-1` exactly when no checked header cell
matches — `getColumnIndex` coincides with that specification. -/
theorem getColumnIndex_resolution_order (table : Table) (field : List Char) :
    getColumnIndex table field = resolveColumnSpec table field := by
  unfold getColumnIndex resolveColumnSpec
  cases hfind : table.rows.find? (fun r => hasTh r) with
  | none =>
    simp only [hfind]
    exact columnScanRows_eq_takeWhile _ _
  | some row =>
    simp only [hfind]
    cases hf : findHeaderIn (field.map Char.toUpper) (ths row) with
    | some i => simp [hf]
    | none =>
      simp only [hf]
      exact columnScanRows_eq_takeWhile _ _

/-- Splitting never returns the empty list of chunks. -/
theorem splitOnChar_ne_nil (sep : Char) (s : List Char) : splitOnChar sep s ≠ [] := by
  induction s with
  | nil => simp [splitOnChar]
  | cons c rest ih =>
    simp only [splitOnChar]
    cases h : splitOnChar sep rest with
    | nil => simp
    | cons a t => by_cases hc : c = sep <;> simp [hc]

/-- A separator-free string splits into itself. -/
theorem splitOnChar_no_sep (sep : Char) (s : List Char) (h : ∀ c ∈ s, ¬ c = sep) :
    splitOnChar sep s = [s] := by
  induction s with
  | nil => rfl
  | cons c rest ih =>
    have hrest := ih (fun x hx => h x (List.mem_cons_of_mem _ hx))
    simp only [splitOnChar, hrest]
    rw [if_neg (h c (List.mem_cons_self _ _))]

/-- Splitting after a separator-free chunk peels that chunk off. -/
theorem splitOnChar_append (sep : Char) (a b : List Char) (h : ∀ c ∈ a, ¬ c = sep) :
    splitOnChar sep (a ++ sep :: b) = a :: splitOnChar sep b := by
  induction a with
  | nil =>
    simp only [List.nil_append, splitOnChar]
    cases hb : splitOnChar sep b with
    | nil => exact absurd hb (splitOnChar_ne_nil sep b)
    | cons x t => simp
  | cons c a' ih =>
    have ih' := ih (fun x hx => h x (List.mem_cons_of_mem _ hx))
    simp only [List.cons_append, splitOnChar]
    rw [show splitOnChar sep (List.append a' (sep :: b)) = a' :: splitOnChar sep b from ih']
    show (if c = sep then [] :: a' :: splitOnChar sep b
      else (c :: a') :: splitOnChar sep b) = (c :: a') :: splitOnChar sep b
    rw [if_neg (h c (List.mem_cons_self _ _))]

/-- `dropWhile` is the identity on lists whose members all fail the test. -/
theorem dropWhile_eq_self_of_not (p : Char → Bool) (s : List Char)
    (h : ∀ c ∈ s, p c = false) : s.dropWhile p = s := by
  cases s with
  | nil => rfl
  | cons c t =>
    rw [List.dropWhile_cons, h c (List.mem_cons_self _ _)]
    simp

/-- Trimming is the identity on whitespace-free strings. -/
theorem trimChars_eq_self (s : List Char) (h : ∀ c ∈ s, isWSChar c = false) :
    trimChars s = s := by
  unfold trimChars
  rw [dropWhile_eq_self_of_not _ _ h]
  rw [dropWhile_eq_self_of_not _ _ (fun c hc => h c (List.mem_reverse.mp hc))]
  exact List.reverse_reverse s

/-- Digits are not whitespace. -/
theorem isWSChar_eq_false_of_isDigit {c : Char} (h : c.isDigit = true) :
    isWSChar c = false := by
  cases hw : isWSChar c
  · rfl
  · exfalso
    simp only [isWSChar, Bool.or_eq_true, beq_iff_eq] at hw
    rcases hw with ((((rfl | rfl) | rfl) | rfl) | rfl) | rfl <;> exact absurd h (by decide)

/-- Letters are not whitespace. -/
theorem isWSChar_eq_false_of_isAlpha {c : Char} (h : c.isAlpha = true) :
    isWSChar c = false := by
  cases hw : isWSChar c
  · rfl
  · exfalso
    simp only [isWSChar, Bool.or_eq_true, beq_iff_eq] at hw
    rcases hw with ((((rfl | rfl) | rfl) | rfl) | rfl) | rfl <;> exact absurd h (by decide)

/-- Digits are not the hyphen separator. -/
theorem ne_dash_of_isDigit {c : Char} (h : c.isDigit = true) : ¬ c = '-' := by
  intro hc
  subst hc
  exact absurd h (by decide)

/-- Letters are not the hyphen separator. -/
theorem ne_dash_of_isAlpha {c : Char} (h : c.isAlpha = true) : ¬ c = '-' := by
  intro hc
  subst hc
  exact absurd h (by decide)

/-- `formatTime` on a 3- or 4-digit side: the last two characters become the
minutes, the remainder (zero-padded to two digits) the hours. -/
theorem formatTime_eq (a : List Char) (h3 : 3 ≤ a.length) (h4 : a.length ≤ 4) :
    formatTime a = leftpad 2 '0' (a.take (a.length - 2)) ++ ':' :: a.drop (a.length - 2) := by
  have hcase : a.length = 3 ∨ a.length = 4 := by omega
  rcases hcase with h | h
  · obtain ⟨x, y, z, rfl⟩ := List.length_eq_three.mp h
    simp [formatTime, leftpad, List.replicate]
  · rcases a with _ | ⟨x, a⟩
    · simp at h
    rcases a with _ | ⟨y, a⟩
    · simp at h
    rcases a with _ | ⟨z, a⟩
    · simp at h
    rcases a with _ | ⟨w, a⟩
    · simp at h
    have ha : a = [] := by
      have := h
      simp only [List.length_cons] at this
      exact List.length_eq_zero.mp (by omega)
    subst ha
    simp [formatTime, leftpad, List.replicate]

/-- C7: on inputs splitting on `-` into exactly two 3-or-4-digit sides, the
time decoder takes the last two characters of each side as minutes and the
zero-padded remainder as hours; every input that does not split into exactly
two parts yields `none`. -/
theorem parseBannerTime_spec :
    (∀ a b : List Char,
      (3 ≤ a.length ∧ a.length ≤ 4 ∧ ∀ c ∈ a, c.isDigit = true) →
      (3 ≤ b.length ∧ b.length ≤ 4 ∧ ∀ c ∈ b, c.isDigit = true) →
      parseBannerTime (a ++ '-' :: b)
        = some ⟨leftpad 2 '0' (a.take (a.length - 2)) ++ ':' :: a.drop (a.length - 2),
                leftpad 2 '0' (b.take (b.length - 2)) ++ ':' :: b.drop (b.length - 2)⟩) ∧
    (∀ s, (splitOnChar '-' (trimChars s)).length ≠ 2 → parseBannerTime s = none) := by
  constructor
  · rintro a b ⟨ha3, ha4, had⟩ ⟨hb3, hb4, hbd⟩
    have hne : a ++ '-' :: b ≠ [] := by
      cases a with
      | nil => simp at ha3
      | cons x t => simp
    have hnws : ∀ c ∈ a ++ '-' :: b, isWSChar c = false := by
      intro c hc
      rcases List.mem_append.mp hc with hc | hc
      · exact isWSChar_eq_false_of_isDigit (had c hc)
      · rcases List.mem_cons.mp hc with rfl | hc
        · decide
        · exact isWSChar_eq_false_of_isDigit (hbd c hc)
    have htrim := trimChars_eq_self _ hnws
    have hsplit : splitOnChar '-' (a ++ '-' :: b) = [a, b] := by
      rw [splitOnChar_append _ _ _ (fun c hc => ne_dash_of_isDigit (had c hc)),
        splitOnChar_no_sep _ _ (fun c hc => ne_dash_of_isDigit (hbd c hc))]
    have hta := trimChars_eq_self a (fun c hc => isWSChar_eq_false_of_isDigit (had c hc))
    have htb := trimChars_eq_self b (fun c hc => isWSChar_eq_false_of_isDigit (hbd c hc))
    unfold parseBannerTime
    rw [if_neg hne, htrim, hsplit]
    simp only [hta, htb]
    rw [formatTime_eq a ha3 ha4, formatTime_eq b hb3 hb4]
  · intro s hlen
    unfold parseBannerTime
    by_cases hs : s = []
    · rw [if_pos hs]
    · rw [if_neg hs]
      rcases hsp : splitOnChar '-' (trimChars s) with _ | ⟨a, _ | ⟨b, _ | ⟨c, t⟩⟩⟩
      · exact absurd hsp (splitOnChar_ne_nil _ _)
      · rfl
      · rw [hsp] at hlen
        simp at hlen
      · rfl

/-- C7 at concrete inputs: `1230-1420` decodes to `12:30`/`14:20`, and an
input without a two-part split yields `none`. -/
theorem parseBannerTime_spec_checked :
    parseBannerTime ("1230-1420".data) = some ⟨"12:30".data, "14:20".data⟩ ∧
    parseBannerTime ("x".data) = none := by
  constructor
  · have h := parseBannerTime_spec.1 ("1230".data) ("1420".data) (by decide) (by decide)
    have he : "1230-1420".data = "1230".data ++ '-' :: ("1420".data) := by decide
    rw [he, h]
    decide
  · exact parseBannerTime_spec.2 ("x".data) (by decide)

/-- Every month number produced by `monthMap` is a two-digit string between
01 and 12. -/
theorem monthMap_shape (x mo : List Char) (h : monthMap x = some mo) :
    mo.length = 2 ∧ (∀ c ∈ mo, c.isDigit = true) ∧
    1 ≤ natOfDigits mo ∧ natOfDigits mo ≤ 12 := by
  unfold monthMap at h
  by_cases h1 : x = "JAN".data
  · rw [if_pos h1] at h
    injection h with h
    subst h
    decide
  rw [if_neg h1] at h
  by_cases h2 : x = "FEB".data
  · rw [if_pos h2] at h
    injection h with h
    subst h
    decide
  rw [if_neg h2] at h
  by_cases h3 : x = "MAR".data
  · rw [if_pos h3] at h
    injection h with h
    subst h
    decide
  rw [if_neg h3] at h
  by_cases h4 : x = "APR".data
  · rw [if_pos h4] at h
    injection h with h
    subst h
    decide
  rw [if_neg h4] at h
  by_cases h5 : x = "MAY".data
  · rw [if_pos h5] at h
    injection h with h
    subst h
    decide
  rw [if_neg h5] at h
  by_cases h6 : x = "JUN".data
  · rw [if_pos h6] at h
    injection h with h
    subst h
    decide
  rw [if_neg h6] at h
  by_cases h7 : x = "JUL".data
  · rw [if_pos h7] at h
    injection h with h
    subst h
    decide
  rw [if_neg h7] at h
  by_cases h8 : x = "AUG".data
  · rw [if_pos h8] at h
    injection h with h
    subst h
    decide
  rw [if_neg h8] at h
  by_cases h9 : x = "SEP".data
  · rw [if_pos h9] at h
    injection h with h
    subst h
    decide
  rw [if_neg h9] at h
  by_cases h10 : x = "OCT".data
  · rw [if_pos h10] at h
    injection h with h
    subst h
    decide
  rw [if_neg h10] at h
  by_cases h11 : x = "NOV".data
  · rw [if_pos h11] at h
    injection h with h
    subst h
    decide
  rw [if_neg h11] at h
  by_cases h12 : x = "DEC".data
  · rw [if_pos h12] at h
    injection h with h
    subst h
    decide
  rw [if_neg h12] at h
  exact Option.noConfusion h

/-- Zero-padding a 1–2 digit string to two characters keeps its value. -/
theorem natOfDigits_leftpad (d : List Char) (h1 : 1 ≤ d.length) (h2 : d.length ≤ 2)
    (hd : ∀ c ∈ d, c.isDigit = true) :
    natOfDigits (leftpad 2 '0' d) = natOfDigits d := by
  have hcase : d.length = 1 ∨ d.length = 2 := by omega
  rcases hcase with h | h
  · obtain ⟨c, rfl⟩ := List.length_eq_one.mp h
    have hc : c.isDigit = true := hd c (List.mem_cons_self _ _)
    simp [leftpad, natOfDigits, List.takeWhile, hc]
  · have hp : leftpad 2 '0' d = d := by
      simp [leftpad, h]
    rw [hp]

/-- Zero-padding a 1–2 digit string yields a two-character digit string. -/
theorem leftpad_day_shape (d : List Char) (h1 : 1 ≤ d.length) (h2 : d.length ≤ 2)
    (hd : ∀ c ∈ d, c.isDigit = true) :
    (leftpad 2 '0' d).length = 2 ∧ ∀ c ∈ leftpad 2 '0' d, c.isDigit = true := by
  constructor
  · simp only [leftpad, List.length_append, List.length_replicate]
    omega
  · intro c hc
    rcases List.mem_append.mp hc with hc | hc
    · rw [List.eq_of_mem_replicate hc]
      decide
    · exact hd c hc

/-- C2: on every input of the shape `D[D]-MMM-YYYY`, the date decoder
answers the 8-digit `YYYYMMDD` string exactly when the month abbreviation is
one of the twelve known ones (case-insensitively) and the day is a real
calendar day of that month, and `none` otherwise; every input that does not
split into exactly three parts also yields `none`. -/
theorem parseBannerDate_spec :
    (∀ d mon y : List Char,
      (1 ≤ d.length ∧ d.length ≤ 2 ∧ ∀ c ∈ d, c.isDigit = true) →
      (mon.length = 3 ∧ ∀ c ∈ mon, c.isAlpha = true) →
      (y.length = 4 ∧ ∀ c ∈ y, c.isDigit = true) →
      parseBannerDate (d ++ '-' :: (mon ++ '-' :: y))
        = match monthMap (mon.map Char.toUpper) with
          | none => none
          | some month =>
            if 1 ≤ natOfDigits d ∧
                natOfDigits d ≤ daysInMonth (natOfDigits y) (natOfDigits month)
            then some (y ++ month ++ leftpad 2 '0' d)
            else none) ∧
    (∀ s, (splitOnChar '-' (trimChars s)).length ≠ 3 → parseBannerDate s = none) := by
  constructor
  · rintro d mon y ⟨hd1, hd2, hdd⟩ ⟨hm3, hma⟩ ⟨hy4, hyd⟩
    have hne : d ++ '-' :: (mon ++ '-' :: y) ≠ [] := by
      cases d with
      | nil => simp at hd1
      | cons x t => simp
    have hnws : ∀ c ∈ d ++ '-' :: (mon ++ '-' :: y), isWSChar c = false := by
      intro c hc
      rcases List.mem_append.mp hc with hc | hc
      · exact isWSChar_eq_false_of_isDigit (hdd c hc)
      · rcases List.mem_cons.mp hc with rfl | hc
        · decide
        · rcases List.mem_append.mp hc with hc | hc
          · exact isWSChar_eq_false_of_isAlpha (hma c hc)
          · rcases List.mem_cons.mp hc with rfl | hc
            · decide
            · exact isWSChar_eq_false_of_isDigit (hyd c hc)
    have htrim := trimChars_eq_self _ hnws
    have hsplit : splitOnChar '-' (d ++ '-' :: (mon ++ '-' :: y)) = [d, mon, y] := by
      rw [splitOnChar_append _ _ _ (fun c hc => ne_dash_of_isDigit (hdd c hc)),
        splitOnChar_append _ _ _ (fun c hc => ne_dash_of_isAlpha (hma c hc)),
        splitOnChar_no_sep _ _ (fun c hc => ne_dash_of_isDigit (hyd c hc))]
    unfold parseBannerDate
    rw [if_neg hne, htrim, hsplit]
    show (match monthMap (mon.map Char.toUpper) with
      | none => none
      | some month =>
        if jsDateValid y month (leftpad 2 '0' d)
        then some (y ++ month ++ leftpad 2 '0' d) else none) = _
    cases hmm : monthMap (mon.map Char.toUpper) with
    | none => rfl
    | some month =>
      obtain ⟨hmo2, hmod, hmo1, hmo12⟩ := monthMap_shape _ _ hmm
      obtain ⟨hp2, hpd⟩ := leftpad_day_shape d hd1 hd2 hdd
      have hnat := natOfDigits_leftpad d hd1 hd2 hdd
      have hiff : jsDateValid y month (leftpad 2 '0' d) ↔
          (1 ≤ natOfDigits d ∧
            natOfDigits d ≤ daysInMonth (natOfDigits y) (natOfDigits month)) := by
        unfold jsDateValid
        constructor
        · rintro ⟨_, _, _, _, _, _, _, _, ha, hb⟩
          rw [hnat] at ha hb
          exact ⟨ha, hb⟩
        · rintro ⟨ha, hb⟩
          refine ⟨hy4, hyd, hmo2, hmod, hp2, hpd, hmo1, hmo12, ?_, ?_⟩ <;>
            rw [hnat] <;> assumption
      exact if_congr hiff rfl rfl
  · intro s hlen
    unfold parseBannerDate
    by_cases hs : s = []
    · rw [if_pos hs]
    · rw [if_neg hs]
      rcases hsp : splitOnChar '-' (trimChars s) with _ | ⟨a, _ | ⟨b, _ | ⟨c, _ | ⟨e, t⟩⟩⟩⟩
      · exact absurd hsp (splitOnChar_ne_nil _ _)
      · rfl
      · rfl
      · rw [hsp] at hlen
        simp at hlen
      · rfl

/-- C2 at concrete inputs: `06-MAY-2024` decodes to `20240506`, and a
hyphen-free input yields `none`. -/
theorem parseBannerDate_spec_checked :
    parseBannerDate ("06-MAY-2024".data) = some ("20240506".data) ∧
    parseBannerDate ("garbage".data) = none := by
  constructor
  · have h := parseBannerDate_spec.1 ("06".data) ("MAY".data) ("2024".data)
      (by decide) (by decide) (by decide)
    have he : "06-MAY-2024".data = "06".data ++ '-' :: ("MAY".data ++ '-' :: "2024".data) := by
      decide
    rw [he, h]
    decide
  · exact parseBannerDate_spec.2 ("garbage".data) (by decide)

/-- C10 at a concrete input: the escaped form of `A; B, C\nD` decodes back. -/
theorem escapeICSText_roundtrip_checked :
    unescapeICSText (escapeICSText ("A; B, C\nD".data)) = "A; B, C\nD".data ∧
    ("A; B, C\nD".data : List Char) = "A; B, C\nD".data :=
  ⟨(escapeICSText_roundtrip ("A; B, C\nD".data) ("A; B, C\nD".data)).1,
   (escapeICSText_roundtrip ("A; B, C\nD".data) ("A; B, C\nD".data)).2 rfl⟩
